import Mathlib

/-!
Verification of the 5-box Leitner vocabulary trainer backend
(`src/backend/server.py`) against its natural-language specification.

The backend is shallowly embedded: MongoDB collections become lists of
records inside a `DB` structure, `find_one` becomes `List.find?` on those
lists (Mongo returns documents in insertion order for this workload),
`insert_one` appends, and `update_one`/upsert updates the first matching
record or appends a fresh one.  UTC timestamps are embedded as minutes
since an epoch (`Timestamp := Nat`); truncating a `datetime` to midnight
becomes integer division by the number of minutes in a day.  Python string
operations `str.strip`, `str.lower` and `str.split(';')` are embedded as
structural functions over the character list underlying `String`.
Endpoints that mutate the database are state-passing functions returning
the new `DB` alongside their response.
-/

namespace KelimeUygulama

/-- UTC instants, measured in whole minutes since an arbitrary epoch. -/
abbrev Timestamp := Nat

def minutesPerDay : Nat := 1440

/-- `dt.replace(hour=0, minute=0, second=0, microsecond=0)` from
`is_midnight_passed` (server.py:98-99): truncate an instant to the
midnight that starts its UTC calendar day. -/
def midnightOf (t : Timestamp) : Timestamp :=
  (t / minutesPerDay) * minutesPerDay

/-- Python `str.strip()`: drop leading and trailing whitespace. -/
def py_strip (s : String) : String :=
  ⟨((s.data.dropWhile Char.isWhitespace).reverse.dropWhile Char.isWhitespace).reverse⟩

/-- Python `str.lower()` (restricted to the ASCII case used by the data). -/
def py_lower (s : String) : String :=
  ⟨s.data.map Char.toLower⟩

def splitSemiAux : List Char → List Char → List (List Char)
  | [], acc => [acc.reverse]
  | x :: xs, acc =>
      if x = ';' then acc.reverse :: splitSemiAux xs [] else splitSemiAux xs (x :: acc)

/-- Python `str.split(';')`: split on every semicolon, keeping empty pieces
(so `"merhaba;".split(';') == ["merhaba", ""]`). -/
def py_split_semicolon (s : String) : List String :=
  (splitSemiAux s.data []).map fun l => ⟨l⟩

/-- `class Student` (server.py:32-37); the generated `id` and `created_at`
play no role in any endpoint and are omitted. -/
structure Student where
  code : String
  name : String
  class_level : String
deriving DecidableEq

/-- `class Word` (server.py:44-49); uuid ids are embedded as distinct `Nat`s. -/
structure Word where
  id : Nat
  class_level : String
  english : String
  turkish_meanings : List String
deriving DecidableEq

/-- `class Progress` (server.py:56-63); the synthetic `id`, `created_at` and
`updated_at` fields are never read by any endpoint and are omitted. -/
structure Progress where
  student_code : String
  word_id : Nat
  box_number : Nat
  last_studied_date : Option Timestamp
deriving DecidableEq

/-- The three MongoDB collections (`db.students`, `db.words`, `db.progress`),
in insertion order. -/
structure DB where
  students : List Student
  words : List Word
  progress : List Progress
deriving DecidableEq

/-- `class StudySession` (server.py:65-69); the client-supplied `is_correct`
flag is carried but ignored by the server. -/
structure StudySession where
  student_code : String
  word_id : Nat
  answer : String
  is_correct : Bool
deriving DecidableEq

/-- The templated feedback messages of `submit_answer` (server.py:236-241),
embedded by their selection case with the box number the f-string interpolates. -/
inductive Feedback where
  | promoted (new_box : Nat)
  | stayed_at_top
  | stayed_same (box : Nat)
deriving DecidableEq

/-- `class StudyResponse` (server.py:71-77). -/
structure StudyResponse where
  word_id : Nat
  english : String
  is_correct : Bool
  correct_answers : List String
  new_box : Nat
  message : Feedback
deriving DecidableEq

/-- `class StudentStats` (server.py:79-83); `box_distribution` keeps the
zero-filled `box_1 .. box_5` keys as the pairs `(1, count) .. (5, count)`. -/
structure StudentStats where
  total_words : Nat
  box_distribution : List (Nat × Nat)
  words_studied_today : Nat
  next_study_words : Nat
deriving DecidableEq

/-- The HTTP error outcomes raised by the endpoints. -/
inductive ApiError where
  | notFound
  | unauthorized
deriving DecidableEq

/-- `is_midnight_passed` (server.py:92-101): true when there is no last
study date, or when today's midnight is strictly later than the midnight
of the last study date. -/
def is_midnight_passed (now : Timestamp) : Option Timestamp → Bool
  | none => true
  | some last_date => decide (midnightOf last_date < midnightOf now)

/-- The Mongo query `{"student_code": sc, "word_id": wid}` as a predicate. -/
def progMatches (student_code : String) (word_id : Nat) (p : Progress) : Bool :=
  p.student_code == student_code && p.word_id == word_id

/-- `db.progress.find_one({"student_code": .., "word_id": ..})`
(server.py:116-119, 225-228, 318-321). -/
def find_progress (db : DB) (student_code : String) (word_id : Nat) : Option Progress :=
  db.progress.find? (progMatches student_code word_id)

/-- The `Progress(...)` record created lazily for an unseen word
(server.py:122-128): box 1, no last study date. -/
def lazyProgress (student_code : String) (word_id : Nat) : Progress :=
  { student_code := student_code, word_id := word_id, box_number := 1,
    last_studied_date := none }

/-- One entry of the `words_to_study` list (server.py:130-153): the word,
its box, and the always-true `can_study` flag the code attaches. -/
structure StudyItem where
  word : Word
  box : Nat
  can_study : Bool
deriving DecidableEq

/-- The per-word loop of `get_student_words_for_study` (server.py:114-153):
walk the class words in catalog order, lazily inserting a box-1 progress
record for unseen words, and collect the study items. -/
def studyLoop (student_code : String) (now : Timestamp) :
    List Word → DB → List StudyItem × DB
  | [], db => ([], db)
  | word :: rest, db =>
    match find_progress db student_code word.id with
    | none =>
        let db1 : DB :=
          { db with progress := db.progress ++ [lazyProgress student_code word.id] }
        let r := studyLoop student_code now rest db1
        (⟨word, 1, true⟩ :: r.1, r.2)
    | some progress =>
        let can_study_today := is_midnight_passed now progress.last_studied_date
        if progress.box_number == 5 then
          if can_study_today && progress.last_studied_date.isNone then
            let r := studyLoop student_code now rest db
            (⟨word, progress.box_number, true⟩ :: r.1, r.2)
          else
            studyLoop student_code now rest db
        else
          if can_study_today then
            let r := studyLoop student_code now rest db
            (⟨word, progress.box_number, true⟩ :: r.1, r.2)
          else
            studyLoop student_code now rest db

/-- Stable insertion step for a descending sort on `box`: the new element
goes in front of the first element whose box is not larger.  Folding it is
Python's stable `list.sort(key=lambda x: x["box"], reverse=True)`
(server.py:160). -/
def insertByBoxDesc (x : StudyItem) : List StudyItem → List StudyItem
  | [] => [x]
  | y :: ys => if y.box ≤ x.box then x :: y :: ys else y :: insertByBoxDesc x ys

/-- Stable sort of study items, descending by box number. -/
def sortByBoxDesc (l : List StudyItem) : List StudyItem :=
  l.foldr insertByBoxDesc []

/-- `get_student_words_for_study` (server.py:103-162): unknown student gives
the empty list; otherwise walk the class words, split the collected items
into the boxes 1-4 (sorted descending by box) and the box-5 tail. -/
def get_student_words_for_study (db : DB) (student_code : String) (now : Timestamp) :
    List StudyItem × DB :=
  match db.students.find? (fun s => s.code == student_code) with
  | none => ([], db)
  | some student =>
    let class_words := db.words.filter fun w => w.class_level == student.class_level
    let r := studyLoop student_code now class_words db
    let words_to_study := r.1
    let available_words := words_to_study.filter fun w => w.can_study && decide (w.box < 5)
    let box5_words := words_to_study.filter fun w => w.can_study && w.box == 5
    (sortByBoxDesc available_words ++ box5_words, r.2)

/-- The student summary returned by `student_login`. -/
structure StudentSummary where
  code : String
  name : String
  class_level : String
deriving DecidableEq

/-- `student_login` (server.py:167-180): 404 for an unknown code, else the
student's summary. -/
def student_login (db : DB) (code : String) : Except ApiError StudentSummary :=
  match db.students.find? (fun s => s.code == code) with
  | none => .error .notFound
  | some student => .ok ⟨student.code, student.name, student.class_level⟩

/-- The payload of `get_next_word` (server.py:196-209). -/
inductive NextWordResult where
  | completed
  | word (word_id : Nat) (english : String) (current_box : Nat) (remaining_words : Nat)
deriving DecidableEq

/-- `get_next_word` (server.py:192-209): head of the study list, or the
`completed` message when the list is empty. -/
def get_next_word (db : DB) (student_code : String) (now : Timestamp) :
    NextWordResult × DB :=
  let r := get_student_words_for_study db student_code now
  match r.1 with
  | [] => (.completed, r.2)
  | next_word :: _ =>
      (.word next_word.word.id next_word.word.english next_word.box r.1.length, r.2)

/-- The correctness test of `submit_answer` (server.py:219-222):
`any(meaning.strip().lower() == session.answer.strip().lower() ...)`. -/
def answer_matches (turkish_meanings : List String) (answer : String) : Bool :=
  let user_answer := py_lower (py_strip answer)
  turkish_meanings.any fun meaning => py_lower (py_strip meaning) == user_answer

/-- The current box of `submit_answer` (server.py:230):
`progress["box_number"] if progress else 1`. -/
def current_box_of (db : DB) (student_code : String) (word_id : Nat) : Nat :=
  match find_progress db student_code word_id with
  | some progress => progress.box_number
  | none => 1

/-- The `$set` of the progress upsert (server.py:244-254) applied to the
first matching record: overwrite `box_number` and `last_studied_date`,
keeping the key fields. -/
def setFirstMatch (student_code : String) (word_id : Nat) (box : Nat)
    (last : Option Timestamp) : List Progress → List Progress
  | [] => []
  | p :: ps =>
    if progMatches student_code word_id p then
      { p with box_number := box, last_studied_date := last } :: ps
    else
      p :: setFirstMatch student_code word_id box last ps

/-- `db.progress.update_one(..., upsert=True)` (server.py:244-254): update
the first record of the `(student_code, word_id)` pair, or insert a fresh
one when the pair has no record. -/
def upsert_progress (db : DB) (student_code : String) (word_id : Nat)
    (box : Nat) (last : Option Timestamp) : DB :=
  if (find_progress db student_code word_id).isSome then
    { db with progress := setFirstMatch student_code word_id box last db.progress }
  else
    { db with progress := db.progress ++
        [{ student_code := student_code, word_id := word_id, box_number := box,
           last_studied_date := last }] }

/-- `submit_answer` (server.py:212-263): look the word up (404 when absent,
leaving the database untouched), judge the answer, compute the new box from
the current box, upsert the progress record with the new box and the
current time, and return the study response. -/
def submit_answer (db : DB) (session : StudySession) (now : Timestamp) :
    Except ApiError StudyResponse × DB :=
  match db.words.find? (fun w => w.id == session.word_id) with
  | none => (.error .notFound, db)
  | some word =>
    let turkish_meanings := word.turkish_meanings
    let is_correct := answer_matches turkish_meanings session.answer
    let current_box := current_box_of db session.student_code session.word_id
    let step : Nat × Feedback :=
      if is_correct && decide (current_box < 5) then
        (current_box + 1, .promoted (current_box + 1))
      else if is_correct && (current_box == 5) then
        (5, .stayed_at_top)
      else
        (current_box, .stayed_same current_box)
    let new_box := step.1
    let db1 := upsert_progress db session.student_code session.word_id new_box (some now)
    (.ok { word_id := session.word_id, english := word.english, is_correct := is_correct,
           correct_answers := turkish_meanings, new_box := new_box, message := step.2 },
     db1)

/-- The box-grouping count of `get_student_stats` (server.py:276-286) for
one box: how many progress records of the student sit in box `i`. -/
def box_count (db : DB) (student_code : String) (i : Nat) : Nat :=
  (db.progress.filter fun p => p.student_code == student_code && p.box_number == i).length

/-- The `last_studied_date >= today_start` Mongo filter (server.py:290-293);
records with a null date never match a `$gte` date comparison. -/
def studiedSince (t : Timestamp) (p : Progress) : Bool :=
  match p.last_studied_date with
  | none => false
  | some d => decide (t ≤ d)

/-- `get_student_stats` (server.py:266-304): 404 for an unknown student,
else the class word count, the zero-filled box distribution, today's study
count, and the length of the study list (whose lazy insertions it keeps). -/
def get_student_stats (db : DB) (student_code : String) (now : Timestamp) :
    Except ApiError StudentStats × DB :=
  match db.students.find? (fun s => s.code == student_code) with
  | none => (.error .notFound, db)
  | some student =>
    let total_words := (db.words.filter fun w => w.class_level == student.class_level).length
    let box_distribution := [1, 2, 3, 4, 5].map fun i => (i, box_count db student_code i)
    let today_start := midnightOf now
    let words_studied_today :=
      (db.progress.filter fun p => p.student_code == student_code && studiedSince today_start p).length
    let r := get_student_words_for_study db student_code now
    (.ok { total_words := total_words, box_distribution := box_distribution,
           words_studied_today := words_studied_today, next_study_words := r.1.length },
     r.2)

/-- One row of the `get_student_words` listing (server.py:323-329). -/
structure WordStatus where
  id : Nat
  english : String
  turkish_meanings : List String
  box : Nat
  last_studied : Option Timestamp
deriving DecidableEq

/-- Stable insertion step for the ascending `result.sort(key=lambda x: x["box"])`
of `get_student_words` (server.py:332). -/
def insertByBoxAsc (x : WordStatus) : List WordStatus → List WordStatus
  | [] => [x]
  | y :: ys => if x.box ≤ y.box then x :: y :: ys else y :: insertByBoxAsc x ys

/-- `get_student_words` (server.py:307-333): 404 for an unknown student,
else every class word with its box (1 when no progress record exists) and
last study date, sorted ascending by box. -/
def get_student_words (db : DB) (student_code : String) :
    Except ApiError (List WordStatus) :=
  match db.students.find? (fun s => s.code == student_code) with
  | none => .error .notFound
  | some student =>
    let class_words := db.words.filter fun w => w.class_level == student.class_level
    let result := class_words.map fun word =>
      match find_progress db student_code word.id with
      | some progress =>
          { id := word.id, english := word.english,
            turkish_meanings := word.turkish_meanings,
            box := progress.box_number, last_studied := progress.last_studied_date :
            WordStatus }
      | none =>
          { id := word.id, english := word.english,
            turkish_meanings := word.turkish_meanings,
            box := 1, last_studied := none }
    .ok (result.foldr insertByBoxAsc [])

/-- The state threaded through the `upload_words` CSV loop: the database,
the `words_added` counter, and the next fresh word id (embedding the uuid
generator). -/
structure WordUploadState where
  db : DB
  words_added : Nat
  next_id : Nat

/-- One row of the `upload_words` loop (server.py:387-409): rows without
exactly three fields are skipped; fields are stripped; the Turkish field is
split on semicolons and each piece stripped; the row is skipped when a word
of the same class whose stored `english` equals the new row's lowercased
`english` exists, else a fresh word is inserted. -/
def upload_words_row (st : WordUploadState) (row : List String) : WordUploadState :=
  match row with
  | [c0, c1, c2] =>
    let class_level := py_strip c0
    let english := py_strip c1
    let turkish := py_strip c2
    let turkish_meanings := (py_split_semicolon turkish).map py_strip
    match st.db.words.find? (fun w =>
        w.class_level == class_level && w.english == py_lower english) with
    | some _ => st
    | none =>
      { db := { st.db with words := st.db.words ++
          [{ id := st.next_id, class_level := class_level, english := english,
             turkish_meanings := turkish_meanings }] },
        words_added := st.words_added + 1,
        next_id := st.next_id + 1 }
  | _ => st

/-- `upload_words` (server.py:376-414) over already-decoded CSV rows:
returns the new database and the `words_added` count.  `first_fresh_id`
seeds the embedded uuid generator. -/
def upload_words (db : DB) (rows : List (List String)) (first_fresh_id : Nat) :
    DB × Nat :=
  let st := rows.foldl upload_words_row
    { db := db, words_added := 0, next_id := first_fresh_id }
  (st.db, st.words_added)

/-- The in-place student update of `upload_students` (server.py:359-362):
overwrite `name` and `class_level` of the first student with the code. -/
def setStudent (code name class_level : String) : List Student → List Student
  | [] => []
  | s :: ss =>
    if s.code == code then { s with name := name, class_level := class_level } :: ss
    else s :: setStudent code name class_level ss

/-- The state threaded through the `upload_students` CSV loop. -/
structure StudentUploadState where
  db : DB
  students_added : Nat
  students_updated : Nat

/-- One row of the `upload_students` loop (server.py:348-368). -/
def upload_students_row (st : StudentUploadState) (row : List String) : StudentUploadState :=
  match row with
  | [c0, c1, c2] =>
    let code := py_strip c0
    let name := py_strip c1
    let class_level := py_strip c2
    match st.db.students.find? (fun s => s.code == code) with
    | some _ =>
      { st with
        db := { st.db with students := setStudent code name class_level st.db.students },
        students_updated := st.students_updated + 1 }
    | none =>
      { st with
        db := { st.db with students := st.db.students ++ [⟨code, name, class_level⟩] },
        students_added := st.students_added + 1 }
  | _ => st

/-- `upload_students` (server.py:336-374) over already-decoded CSV rows:
returns the new database, `students_added` and `students_updated`. -/
def upload_students (db : DB) (rows : List (List String)) : DB × Nat × Nat :=
  let st := rows.foldl upload_students_row
    { db := db, students_added := 0, students_updated := 0 }
  (st.db, st.students_added, st.students_updated)

/-- The body of the study loop (server.py:114-153) for a single word against
a fixed database: `some item` when the word enters `words_to_study`, `none`
when it is filtered out.  `studyLoop` computes exactly the `filterMap` of
this function when the catalog's word ids are distinct. -/
def eligible_entry (db : DB) (student_code : String) (now : Timestamp) (word : Word) :
    Option StudyItem :=
  match find_progress db student_code word.id with
  | none => some ⟨word, 1, true⟩
  | some progress =>
    let can_study_today := is_midnight_passed now progress.last_studied_date
    if progress.box_number == 5 then
      if can_study_today && progress.last_studied_date.isNone then
        some ⟨word, progress.box_number, true⟩
      else none
    else
      if can_study_today then some ⟨word, progress.box_number, true⟩ else none

/-- The class word catalog of a student (server.py:110). -/
def class_words_of (db : DB) (student : Student) : List Word :=
  db.words.filter fun w => w.class_level == student.class_level

/-- The `words_to_study` list (server.py:112-153) computed against a fixed
database: the catalog-ordered eligibility decisions for the student's class. -/
def eligible_items (db : DB) (sc : String) (now : Timestamp) (st : Student) :
    List StudyItem :=
  (class_words_of db st).filterMap (eligible_entry db sc now)

/-- Every database reachable from `db` by running the backend's mutating
endpoints in any order: answer submissions, study-list computations (also
run inside `get_next_word` and `get_student_stats`), and the two CSV
imports.  The read-only endpoints (`student_login`, `get_student_words`,
`admin_login`) do not touch the database. -/
inductive Evolve : DB → DB → Prop
  | refl (db : DB) : Evolve db db
  | submit (db db1 : DB) (s : StudySession) (now : Timestamp) :
      Evolve db db1 → Evolve db (submit_answer db1 s now).2
  | study (db db1 : DB) (code : String) (now : Timestamp) :
      Evolve db db1 → Evolve db (get_student_words_for_study db1 code now).2
  | next_word (db db1 : DB) (code : String) (now : Timestamp) :
      Evolve db db1 → Evolve db (get_next_word db1 code now).2
  | stats (db db1 : DB) (code : String) (now : Timestamp) :
      Evolve db db1 → Evolve db (get_student_stats db1 code now).2
  | words_import (db db1 : DB) (rows : List (List String)) (first_fresh_id : Nat) :
      Evolve db db1 → Evolve db (upload_words db1 rows first_fresh_id).1
  | students_import (db db1 : DB) (rows : List (List String)) :
      Evolve db db1 → Evolve db (upload_students db1 rows).1

/-! ### Concrete databases used to exercise the theorems -/

/-- The spec's running example: student `9011` in class `5A`, one word
`hello` with the single meaning `merhaba`, nothing studied yet. -/
def wDB : DB :=
  { students := [⟨"9011", "Ali ARIKAN", "5A"⟩],
    words := [⟨0, "5A", "hello", ["merhaba"]⟩],
    progress := [] }

def wDB_word : Word := ⟨0, "5A", "hello", ["merhaba"]⟩

/-- `wDB` after the `hello` word has reached box 2. -/
def c1_db : DB :=
  { students := [⟨"9011", "Ali ARIKAN", "5A"⟩],
    words := [⟨0, "5A", "hello", ["merhaba"]⟩],
    progress := [⟨"9011", 0, 2, some 100⟩] }

def c1_session : StudySession := ⟨"9011", 0, "Merhaba ", false⟩

def c2_word : Word := ⟨0, "c", "a", ["x"]⟩

/-- One word last studied at 23:59 UTC of day 0 (minute 1439). -/
def c2_db_a : DB :=
  { students := [⟨"s", "n", "c"⟩], words := [c2_word],
    progress := [⟨"s", 0, 3, some 1439⟩] }

/-- One word last studied at 00:01 UTC of day 1 (minute 1441). -/
def c2_db_b : DB :=
  { students := [⟨"s", "n", "c"⟩], words := [c2_word],
    progress := [⟨"s", 0, 3, some 1441⟩] }

/-- One word already in box 5 and studied once (minute 500). -/
def c3_db : DB :=
  { students := [⟨"s", "n", "c"⟩], words := [c2_word],
    progress := [⟨"s", 0, 5, some 500⟩] }

/-- Four eligible words sitting in boxes 1, 3, 2, 4 in catalog order. -/
def c4_db : DB :=
  { students := [⟨"s", "n", "c"⟩],
    words := [⟨0, "c", "w0", []⟩, ⟨1, "c", "w1", []⟩, ⟨2, "c", "w2", []⟩,
      ⟨3, "c", "w3", []⟩],
    progress := [⟨"s", 0, 1, none⟩, ⟨"s", 1, 3, none⟩, ⟨"s", 2, 2, none⟩,
      ⟨"s", 3, 4, none⟩] }

def c4_student : Student := ⟨"s", "n", "c"⟩

/-- A catalog already holding the word `Hello` for class `5A`. -/
def c8_db : DB :=
  { students := [], words := [⟨0, "5A", "Hello", ["merhaba"]⟩], progress := [] }

/-- The words produced by importing the row `5A,hello,merhaba;` (note the
trailing semicolon) into an empty database. -/
def c10_db : DB := (upload_words ⟨[], [], []⟩ [["5A", "hello", "merhaba;"]] 0).1

def c10_session : StudySession := ⟨"9011", 0, " ", false⟩

/-! ### General lemmas about `List.find?` over appends -/

theorem find?_append_of_some {α} {p : α → Bool} {l l2 : List α} {a : α}
    (h : l.find? p = some a) : (l ++ l2).find? p = some a := by
  rw [List.find?_append, h]; rfl

theorem find?_append_single_nomatch {α} {p : α → Bool} {l : List α} {q : α}
    (h : p q = false) : (l ++ [q]).find? p = l.find? p := by
  rw [List.find?_append]
  cases hf : l.find? p with
  | some a => rfl
  | none => simp [List.find?, h]

/-! ### The stable descending sort -/

theorem mem_insertByBoxDesc {a x : StudyItem} {l : List StudyItem} :
    a ∈ insertByBoxDesc x l ↔ a = x ∨ a ∈ l := by
  induction l with
  | nil => simp [insertByBoxDesc]
  | cons y ys ih =>
      simp only [insertByBoxDesc]
      split
      · simp
      · simp [ih]; tauto

theorem mem_sortByBoxDesc {a : StudyItem} {l : List StudyItem} :
    a ∈ sortByBoxDesc l ↔ a ∈ l := by
  induction l with
  | nil => simp [sortByBoxDesc]
  | cons y ys ih =>
      simp only [sortByBoxDesc, List.foldr] at *
      rw [mem_insertByBoxDesc, ih]
      simp

theorem perm_insertByBoxDesc (x : StudyItem) (l : List StudyItem) :
    (insertByBoxDesc x l).Perm (x :: l) := by
  induction l with
  | nil => simp [insertByBoxDesc]
  | cons y ys ih =>
      simp only [insertByBoxDesc]
      split
      · exact List.Perm.refl _
      · exact (List.Perm.cons y ih).trans (List.Perm.swap x y ys)

theorem perm_sortByBoxDesc (l : List StudyItem) : (sortByBoxDesc l).Perm l := by
  induction l with
  | nil => simp [sortByBoxDesc]
  | cons y ys ih =>
      simpa [sortByBoxDesc] using (perm_insertByBoxDesc y (sortByBoxDesc ys)).trans
        (List.Perm.cons y ih)

theorem sorted_insertByBoxDesc {x : StudyItem} {l : List StudyItem}
    (h : l.Pairwise fun a b => b.box ≤ a.box) :
    (insertByBoxDesc x l).Pairwise fun a b => b.box ≤ a.box := by
  induction l with
  | nil => simp [insertByBoxDesc]
  | cons y ys ih =>
      rcases List.pairwise_cons.mp h with ⟨hy, hys⟩
      simp only [insertByBoxDesc]
      split
      · rename_i hle
        refine List.pairwise_cons.mpr ⟨?_, h⟩
        intro z hz
        rcases List.mem_cons.mp hz with hz | hz
        · exact hz ▸ hle
        · exact le_trans (hy z hz) hle
      · rename_i hgt
        refine List.pairwise_cons.mpr ⟨?_, ih hys⟩
        intro z hz
        rcases mem_insertByBoxDesc.mp hz with hz | hz
        · exact hz ▸ le_of_lt (Nat.lt_of_not_le hgt)
        · exact hy z hz

theorem sorted_sortByBoxDesc (l : List StudyItem) :
    (sortByBoxDesc l).Pairwise fun a b => b.box ≤ a.box := by
  induction l with
  | nil => simp [sortByBoxDesc]
  | cons y ys ih => exact sorted_insertByBoxDesc ih

theorem filter_insertByBoxDesc (x : StudyItem) (l : List StudyItem) (b : Nat) :
    (insertByBoxDesc x l).filter (fun i => i.box == b) =
      if x.box = b then x :: l.filter (fun i => i.box == b)
      else l.filter (fun i => i.box == b) := by
  induction l with
  | nil => by_cases hx : x.box = b <;> simp [insertByBoxDesc, List.filter_cons, hx]
  | cons y ys ih =>
      simp only [insertByBoxDesc]
      split
      · by_cases hx : x.box = b <;> simp [List.filter_cons, hx]
      · rename_i hgt
        by_cases hx : x.box = b
        · have hyne : y.box ≠ b := fun he => hgt (by omega)
          simp [List.filter_cons, hx, hyne, ih]
        · simp only [List.filter_cons, ih, if_neg hx]

theorem filter_sortByBoxDesc (l : List StudyItem) (b : Nat) :
    (sortByBoxDesc l).filter (fun i => i.box == b) = l.filter (fun i => i.box == b) := by
  induction l with
  | nil => rfl
  | cons y ys ih =>
      have hstep : sortByBoxDesc (y :: ys) = insertByBoxDesc y (sortByBoxDesc ys) := rfl
      rw [hstep, filter_insertByBoxDesc]
      by_cases hy : y.box = b <;> simp [List.filter_cons, hy, ih]

/-! ### Shape of the study loop's database updates -/

theorem studyLoop_students (sc : String) (now : Timestamp) (ws : List Word) :
    ∀ db : DB, (studyLoop sc now ws db).2.students = db.students := by
  induction ws with
  | nil => intro db; rfl
  | cons w rest ih =>
      intro db
      simp only [studyLoop]
      cases hf : find_progress db sc w.id with
      | none => exact ih _
      | some progress => dsimp only; split_ifs <;> exact ih _

theorem studyLoop_words (sc : String) (now : Timestamp) (ws : List Word) :
    ∀ db : DB, (studyLoop sc now ws db).2.words = db.words := by
  induction ws with
  | nil => intro db; rfl
  | cons w rest ih =>
      intro db
      simp only [studyLoop]
      cases hf : find_progress db sc w.id with
      | none => exact ih _
      | some progress => dsimp only; split_ifs <;> exact ih _

theorem studyLoop_progress_extends (sc : String) (now : Timestamp) (ws : List Word) :
    ∀ db : DB, ∃ ex, (studyLoop sc now ws db).2.progress = db.progress ++ ex := by
  induction ws with
  | nil => intro db; exact ⟨[], by simp [studyLoop]⟩
  | cons w rest ih =>
      intro db
      simp only [studyLoop]
      cases hf : find_progress db sc w.id with
      | none =>
          obtain ⟨ex, hex⟩ :=
            ih { db with progress := db.progress ++ [lazyProgress sc w.id] }
          exact ⟨lazyProgress sc w.id :: ex, by simpa using hex⟩
      | some progress => dsimp only; split_ifs <;> exact ih _

/-- A progress record the loop's starting database already resolves stays
resolved to the same record: the loop only appends. -/
theorem find_progress_studyLoop_of_some {db : DB} {sc2 : String} {wid : Nat} {q : Progress}
    (sc : String) (now : Timestamp) (ws : List Word)
    (h : find_progress db sc2 wid = some q) :
    find_progress (studyLoop sc now ws db).2 sc2 wid = some q := by
  obtain ⟨ex, hex⟩ := studyLoop_progress_extends sc now ws db
  unfold find_progress at h ⊢
  rw [hex]
  exact find?_append_of_some h

/-- `eligible_entry` always tags the item with the word it was computed for,
and with the always-true `can_study` flag. -/
theorem eligible_entry_word {db : DB} {sc : String} {now : Timestamp} {w : Word}
    {i : StudyItem} (h : eligible_entry db sc now w = some i) :
    i.word = w ∧ i.can_study = true := by
  unfold eligible_entry at h
  cases hf : find_progress db sc w.id with
  | none => rw [hf] at h; cases h; exact ⟨rfl, rfl⟩
  | some progress =>
      rw [hf] at h
      dsimp only at h
      split_ifs at h <;> cases h <;> exact ⟨rfl, rfl⟩

/-- With pairwise-distinct word ids, the study loop collects exactly the
per-word eligibility decisions taken against the starting database: the
lazy insertions it performs along the way never shadow a later lookup.
`db2` generalizes the walked database over the loop's own insertions. -/
theorem studyLoop_fst_eq_filterMap (sc : String) (now : Timestamp) (ws : List Word) :
    ∀ db db2 : DB,
      (∀ w ∈ ws, find_progress db2 sc w.id = find_progress db sc w.id) →
      (ws.map Word.id).Nodup →
      (studyLoop sc now ws db2).1 = ws.filterMap (eligible_entry db sc now) := by
  induction ws with
  | nil => intro db db2 _ _; rfl
  | cons w rest ih =>
      intro db db2 hagree hnodup
      have hw : find_progress db2 sc w.id = find_progress db sc w.id :=
        hagree w (List.mem_cons_self w rest)
      have hid : w.id ∉ rest.map Word.id := by
        have hcons : (w.id :: rest.map Word.id).Nodup := by simpa using hnodup
        exact (List.nodup_cons.mp hcons).1
      have hnodup' : (rest.map Word.id).Nodup := by
        have hcons : (w.id :: rest.map Word.id).Nodup := by simpa using hnodup
        exact (List.nodup_cons.mp hcons).2
      have hagree' : ∀ w2 ∈ rest, find_progress db2 sc w2.id = find_progress db sc w2.id :=
        fun w2 hw2 => hagree w2 (List.mem_cons_of_mem w hw2)
      simp only [studyLoop, List.filterMap_cons, eligible_entry, hw]
      cases hf : find_progress db sc w.id with
      | none =>
          dsimp only
          have hagree2 : ∀ w2 ∈ rest,
              find_progress { db2 with
                progress := db2.progress ++ [lazyProgress sc w.id] } sc w2.id =
              find_progress db sc w2.id := by
            intro w2 hw2
            have hne : w.id ≠ w2.id := by
              intro he
              exact hid (he ▸ List.mem_map_of_mem Word.id hw2)
            have hnom : progMatches sc w2.id (lazyProgress sc w.id) = false := by
              simp [progMatches, lazyProgress, hne]
            have : find_progress { db2 with
                progress := db2.progress ++ [lazyProgress sc w.id] } sc w2.id =
                find_progress db2 sc w2.id := by
              unfold find_progress
              exact find?_append_single_nomatch hnom
            rw [this]
            exact hagree' w2 hw2
          rw [ih db _ hagree2 hnodup']
      | some progress =>
          dsimp only
          split_ifs <;> simp only [ih db db2 hagree' hnodup']

/-- When the student is found and the class catalog has distinct word ids,
the study list is the sorted below-5 part of the per-word eligibility
decisions followed by their box-5 part. -/
theorem get_study_output (db : DB) (sc : String) (now : Timestamp) (st : Student)
    (hst : db.students.find? (fun s => s.code == sc) = some st)
    (hnodup : ((class_words_of db st).map Word.id).Nodup) :
    (get_student_words_for_study db sc now).1 =
      sortByBoxDesc ((eligible_items db sc now st).filter
          fun i => i.can_study && decide (i.box < 5)) ++
        (eligible_items db sc now st).filter fun i => i.can_study && i.box == 5 := by
  unfold get_student_words_for_study
  rw [hst]
  dsimp only
  rw [studyLoop_fst_eq_filterMap sc now _ db db (fun _ _ => rfl)
    (by simpa [class_words_of] using hnodup)]
  rfl

theorem item_mem_output {db : DB} {sc : String} {now : Timestamp} {st : Student}
    (hst : db.students.find? (fun s => s.code == sc) = some st)
    (hnodup : ((class_words_of db st).map Word.id).Nodup)
    {w : Word} {i : StudyItem}
    (hw : w ∈ class_words_of db st) (he : eligible_entry db sc now w = some i)
    (hbox : i.box < 5 ∨ i.box = 5) :
    i ∈ (get_student_words_for_study db sc now).1 := by
  rw [get_study_output db sc now st hst hnodup]
  have hcan : i.can_study = true := (eligible_entry_word he).2
  have hmem : i ∈ eligible_items db sc now st :=
    List.mem_filterMap.mpr ⟨w, hw, he⟩
  rcases hbox with hbox | hbox
  · exact List.mem_append_left _ (mem_sortByBoxDesc.mpr
      (List.mem_filter.mpr ⟨hmem, by simp [hcan, hbox]⟩))
  · exact List.mem_append_right _
      (List.mem_filter.mpr ⟨hmem, by simp [hcan, hbox]⟩)

theorem output_mem_item {db : DB} {sc : String} {now : Timestamp} {st : Student}
    (hst : db.students.find? (fun s => s.code == sc) = some st)
    (hnodup : ((class_words_of db st).map Word.id).Nodup)
    {i : StudyItem} (hi : i ∈ (get_student_words_for_study db sc now).1) :
    ∃ w ∈ class_words_of db st, eligible_entry db sc now w = some i := by
  rw [get_study_output db sc now st hst hnodup] at hi
  have hmem : i ∈ eligible_items db sc now st := by
    rcases List.mem_append.mp hi with hi | hi
    · exact (List.mem_filter.mp (mem_sortByBoxDesc.mp hi)).1
    · exact (List.mem_filter.mp hi).1
  exact List.mem_filterMap.mp hmem

/-! ### The progress upsert -/

theorem find?_setFirstMatch_self {sc : String} {wid : Nat} {b : Nat}
    {l : Option Timestamp} {ps : List Progress} {q : Progress}
    (h : ps.find? (progMatches sc wid) = some q) :
    (setFirstMatch sc wid b l ps).find? (progMatches sc wid) =
      some { q with box_number := b, last_studied_date := l } := by
  induction ps with
  | nil => simp [List.find?] at h
  | cons p ps ih =>
      by_cases hp : progMatches sc wid p = true
      · rw [List.find?_cons_of_pos _ hp] at h
        cases h
        have hp2 : progMatches sc wid
            ({ q with box_number := b, last_studied_date := l }) = true := by
          simpa [progMatches] using hp
        simp only [setFirstMatch, if_pos hp]
        rw [List.find?_cons_of_pos _ hp2]
      · rw [List.find?_cons_of_neg _ (by simp [hp])] at h
        simp only [setFirstMatch, if_neg hp]
        rw [List.find?_cons_of_neg _ (by simp [hp])]
        exact ih h

theorem find?_setFirstMatch_other {sc2 : String} {wid2 : Nat} {sc : String} {wid : Nat}
    {b : Nat} {l : Option Timestamp} {ps : List Progress}
    (hne : ¬(sc2 = sc ∧ wid2 = wid)) :
    (setFirstMatch sc2 wid2 b l ps).find? (progMatches sc wid) =
      ps.find? (progMatches sc wid) := by
  induction ps with
  | nil => rfl
  | cons p ps ih =>
      by_cases hp : progMatches sc2 wid2 p = true
      · have hkeys : p.student_code = sc2 ∧ p.word_id = wid2 := by
          simpa [progMatches, Bool.and_eq_true, beq_iff_eq] using hp
        have hnp : progMatches sc wid p = false := by
          by_cases hx : progMatches sc wid p = true
          · exfalso
            have hkeys2 : p.student_code = sc ∧ p.word_id = wid := by
              simpa [progMatches, Bool.and_eq_true, beq_iff_eq] using hx
            exact hne ⟨hkeys.1.symm.trans hkeys2.1, hkeys.2.symm.trans hkeys2.2⟩
          · simpa using hx
        have hnp2 : progMatches sc wid
            ({ p with box_number := b, last_studied_date := l }) = false := by
          simpa [progMatches] using hnp
        simp only [setFirstMatch, if_pos hp]
        rw [List.find?_cons_of_neg _ (by simp [hnp2]),
          List.find?_cons_of_neg _ (by simp [hnp])]
      · simp only [setFirstMatch, if_neg hp]
        by_cases hq : progMatches sc wid p = true
        · rw [List.find?_cons_of_pos _ hq, List.find?_cons_of_pos _ hq]
        · rw [List.find?_cons_of_neg _ (by simp [hq]),
            List.find?_cons_of_neg _ (by simp [hq])]
          exact ih

theorem find_progress_upsert_self (db : DB) (sc : String) (wid : Nat) (b : Nat)
    (l : Option Timestamp) :
    ∃ q, find_progress (upsert_progress db sc wid b l) sc wid = some q ∧
      q.box_number = b ∧ q.last_studied_date = l := by
  unfold upsert_progress
  by_cases hs : (find_progress db sc wid).isSome = true
  · rw [if_pos hs]
    obtain ⟨q, hq⟩ := Option.isSome_iff_exists.mp hs
    exact ⟨{ q with box_number := b, last_studied_date := l },
      find?_setFirstMatch_self hq, rfl, rfl⟩
  · rw [if_neg hs]
    have hnone : db.progress.find? (progMatches sc wid) = none := by
      have := Option.not_isSome_iff_eq_none.mp (by simpa using hs)
      simpa [find_progress] using this
    refine ⟨(⟨sc, wid, b, l⟩ : Progress), ?_, rfl, rfl⟩
    show (db.progress ++ [(⟨sc, wid, b, l⟩ : Progress)]).find? (progMatches sc wid) = _
    rw [List.find?_append, hnone]
    simp [List.find?, progMatches]

theorem find_progress_upsert_other (db : DB) {sc2 : String} {wid2 : Nat}
    {sc : String} {wid : Nat} (b : Nat) (l : Option Timestamp)
    (hne : ¬(sc2 = sc ∧ wid2 = wid)) :
    find_progress (upsert_progress db sc2 wid2 b l) sc wid = find_progress db sc wid := by
  unfold upsert_progress
  split
  · exact find?_setFirstMatch_other hne
  · show (db.progress ++ [_]).find? (progMatches sc wid) = _
    refine find?_append_single_nomatch ?_
    by_cases hx : progMatches sc wid
        { student_code := sc2, word_id := wid2, box_number := b,
          last_studied_date := l } = true
    · exfalso
      have : sc2 = sc ∧ wid2 = wid := by
        simpa [progMatches, Bool.and_eq_true, beq_iff_eq] using hx
      exact hne this
    · simpa using hx

/-! ### Preservation of a studied box-5 record by every endpoint -/

/-- Submitting any answer keeps a box-5 record with a non-null study date in
box 5 with a non-null date: a submission for the same pair recomputes box 5
(no demotion, ceiling at 5) and stamps the current time; any other pair
leaves the record alone. -/
theorem submit_preserves_box5 {db : DB} {sc : String} {wid : Nat} {p : Progress}
    (s : StudySession) (now : Timestamp)
    (hp : find_progress db sc wid = some p) (h5 : p.box_number = 5)
    (hl : p.last_studied_date ≠ none) :
    ∃ p2, find_progress (submit_answer db s now).2 sc wid = some p2 ∧
      p2.box_number = 5 ∧ p2.last_studied_date ≠ none := by
  unfold submit_answer
  cases hw : db.words.find? (fun w => w.id == s.word_id) with
  | none => exact ⟨p, hp, h5, hl⟩
  | some w =>
      dsimp only
      by_cases hpair : s.student_code = sc ∧ s.word_id = wid
      · obtain ⟨hsc, hwid⟩ := hpair
        subst hsc hwid
        have hcur : current_box_of db s.student_code s.word_id = 5 := by
          unfold current_box_of
          rw [hp]
          exact h5
        rw [hcur]
        have hstep :
            (if answer_matches w.turkish_meanings s.answer && decide (5 < 5) then
                (5 + 1, Feedback.promoted (5 + 1))
              else if answer_matches w.turkish_meanings s.answer && (5 == 5) then
                (5, Feedback.stayed_at_top)
              else (5, Feedback.stayed_same 5)).1 = 5 := by
          cases answer_matches w.turkish_meanings s.answer <;> simp
        rw [hstep]
        obtain ⟨q, hq, hqb, hql⟩ :=
          find_progress_upsert_self db s.student_code s.word_id 5 (some now)
        exact ⟨q, hq, hqb, by simp [hql]⟩
      · rw [find_progress_upsert_other db _ _ hpair]
        exact ⟨p, hp, h5, hl⟩

/-- The study-list computation never modifies an existing progress record. -/
theorem study_preserves_find {db : DB} {sc : String} {wid : Nat} {q : Progress}
    (code : String) (now : Timestamp)
    (h : find_progress db sc wid = some q) :
    find_progress (get_student_words_for_study db code now).2 sc wid = some q := by
  unfold get_student_words_for_study
  cases hs : db.students.find? (fun s => s.code == code) with
  | none => exact h
  | some st => exact find_progress_studyLoop_of_some code now _ h

theorem next_word_preserves_find {db : DB} {sc : String} {wid : Nat} {q : Progress}
    (code : String) (now : Timestamp)
    (h : find_progress db sc wid = some q) :
    find_progress (get_next_word db code now).2 sc wid = some q := by
  unfold get_next_word
  dsimp only
  split <;> exact study_preserves_find code now h

theorem stats_preserves_find {db : DB} {sc : String} {wid : Nat} {q : Progress}
    (code : String) (now : Timestamp)
    (h : find_progress db sc wid = some q) :
    find_progress (get_student_stats db code now).2 sc wid = some q := by
  unfold get_student_stats
  cases hs : db.students.find? (fun s => s.code == code) with
  | none => exact h
  | some st => exact study_preserves_find code now h

theorem upload_words_row_progress (st : WordUploadState) (row : List String) :
    (upload_words_row st row).db.progress = st.db.progress := by
  unfold upload_words_row
  split
  · dsimp only
    split <;> rfl
  · rfl

theorem upload_words_progress (db : DB) (rows : List (List String)) (fid : Nat) :
    (upload_words db rows fid).1.progress = db.progress := by
  suffices h : ∀ st : WordUploadState,
      ((rows.foldl upload_words_row st).db.progress = st.db.progress) by
    exact h _
  induction rows with
  | nil => intro st; rfl
  | cons row rows ih =>
      intro st
      calc ((rows.foldl upload_words_row (upload_words_row st row)).db.progress)
          = (upload_words_row st row).db.progress := ih _
        _ = st.db.progress := upload_words_row_progress st row

theorem upload_students_row_progress (st : StudentUploadState) (row : List String) :
    (upload_students_row st row).db.progress = st.db.progress := by
  unfold upload_students_row
  split
  · dsimp only
    split <;> rfl
  · rfl

theorem upload_students_progress (db : DB) (rows : List (List String)) :
    (upload_students db rows).1.progress = db.progress := by
  suffices h : ∀ st : StudentUploadState,
      ((rows.foldl upload_students_row st).db.progress = st.db.progress) by
    exact h _
  induction rows with
  | nil => intro st; rfl
  | cons row rows ih =>
      intro st
      calc ((rows.foldl upload_students_row (upload_students_row st row)).db.progress)
          = (upload_students_row st row).db.progress := ih _
        _ = st.db.progress := upload_students_row_progress st row

/-- Across every reachable future database, a box-5 record with a non-null
study date keeps box 5 and a non-null date: no endpoint ever nulls the date
or moves the box off 5. -/
theorem evolve_preserves_box5 {db db2 : DB} (hEv : Evolve db db2)
    {sc : String} {wid : Nat} {p : Progress}
    (hp : find_progress db sc wid = some p) (h5 : p.box_number = 5)
    (hl : p.last_studied_date ≠ none) :
    ∃ p2, find_progress db2 sc wid = some p2 ∧ p2.box_number = 5 ∧
      p2.last_studied_date ≠ none := by
  induction hEv with
  | refl => exact ⟨p, hp, h5, hl⟩
  | submit db1 s now _ ih =>
      obtain ⟨p2, h1, h2, h3⟩ := ih
      exact submit_preserves_box5 s now h1 h2 h3
  | study db1 code now _ ih =>
      obtain ⟨p2, h1, h2, h3⟩ := ih
      exact ⟨p2, study_preserves_find code now h1, h2, h3⟩
  | next_word db1 code now _ ih =>
      obtain ⟨p2, h1, h2, h3⟩ := ih
      exact ⟨p2, next_word_preserves_find code now h1, h2, h3⟩
  | stats db1 code now _ ih =>
      obtain ⟨p2, h1, h2, h3⟩ := ih
      exact ⟨p2, stats_preserves_find code now h1, h2, h3⟩
  | words_import db1 rows fid _ ih =>
      obtain ⟨p2, h1, h2, h3⟩ := ih
      refine ⟨p2, ?_, h2, h3⟩
      unfold find_progress at h1 ⊢
      rw [upload_words_progress]
      exact h1
  | students_import db1 rows _ ih =>
      obtain ⟨p2, h1, h2, h3⟩ := ih
      refine ⟨p2, ?_, h2, h3⟩
      unfold find_progress at h1 ⊢
      rw [upload_students_progress]
      exact h1

/-- Within one study-list computation, a box-5 record with a non-null study
date keeps every item of that word id out of the collected list. -/
theorem studyLoop_excludes {sc : String} {wid : Nat}
    (now : Timestamp) (ws : List Word) :
    ∀ {db : DB} {p : Progress}, find_progress db sc wid = some p →
      p.box_number = 5 → p.last_studied_date ≠ none →
      ∀ i ∈ (studyLoop sc now ws db).1, i.word.id ≠ wid := by
  induction ws with
  | nil => intro db p _ _ _ i hi; simp [studyLoop] at hi
  | cons w rest ih =>
      intro db p hp h5 hl i hi
      cases hf : find_progress db sc w.id with
      | none =>
          simp only [studyLoop, hf] at hi
          have hne : w.id ≠ wid := by
            intro he
            rw [he, hp] at hf
            cases hf
          rcases List.mem_cons.mp hi with hi | hi
          · rw [hi]; exact hne
          · refine ih ?_ h5 hl i hi
            unfold find_progress at hp ⊢
            exact find?_append_of_some hp
      | some progress =>
          simp only [studyLoop, hf] at hi
          by_cases hww : w.id = wid
          · rw [hww, hp] at hf
            injection hf with hf2
            subst hf2
            have hno : p.last_studied_date.isNone = false := by
              cases hld : p.last_studied_date with
              | none => exact absurd hld hl
              | some d => rfl
            rw [if_pos (by simp [h5]), if_neg (by simp [hno])] at hi
            exact ih hp h5 hl i hi
          · split_ifs at hi <;>
              first
              | (rcases List.mem_cons.mp hi with hieq | hi
                 · rw [hieq]; exact hww
                 · exact ih hp h5 hl i hi)
              | exact ih hp h5 hl i hi

/-! ### Remaining helper lemmas -/

/-- The midnight rule, spelled out: it passes exactly when there is no last
study date, or the day of the last study date (truncated to its midnight)
lies strictly before the current day's midnight. -/
theorem is_midnight_passed_iff (now : Timestamp) (o : Option Timestamp) :
    is_midnight_passed now o = true ↔
      (o = none ∨ ∃ d, o = some d ∧ midnightOf d < midnightOf now) := by
  cases o with
  | none => simp [is_midnight_passed]
  | some d => simp [is_midnight_passed]

/-- Walking the loop over a catalog with distinct ids inserts the lazy box-1
record for a word that had none, and nothing later overwrites it. -/
theorem studyLoop_creates_lazy {sc : String} {now : Timestamp} (ws : List Word) :
    ∀ {db : DB} {w : Word}, w ∈ ws → (ws.map Word.id).Nodup →
      find_progress db sc w.id = none →
      find_progress (studyLoop sc now ws db).2 sc w.id =
        some (lazyProgress sc w.id) := by
  induction ws with
  | nil => intro db w hw _ _; cases hw
  | cons v rest ih =>
      intro db w hw hnodup hnone
      have hvcons : (v.id :: rest.map Word.id).Nodup := by simpa using hnodup
      cases hf : find_progress db sc v.id with
      | none =>
          simp only [studyLoop, hf]
          rcases List.mem_cons.mp hw with rfl | hwrest
          · have hfind1 : find_progress
                { db with progress := db.progress ++ [lazyProgress sc w.id] }
                sc w.id = some (lazyProgress sc w.id) := by
              unfold find_progress at hnone ⊢
              rw [List.find?_append, hnone]
              simp [List.find?, progMatches, lazyProgress]
            exact find_progress_studyLoop_of_some sc now rest hfind1
          · have hvw : v.id ≠ w.id := by
              intro he
              exact (List.nodup_cons.mp hvcons).1
                (he ▸ List.mem_map_of_mem Word.id hwrest)
            have hkeep : find_progress
                { db with progress := db.progress ++ [lazyProgress sc v.id] }
                sc w.id = none := by
              unfold find_progress at hnone ⊢
              rw [find?_append_single_nomatch (by simp [progMatches, lazyProgress, hvw])]
              exact hnone
            exact ih hwrest (List.nodup_cons.mp hvcons).2 hkeep
      | some progress =>
          rcases List.mem_cons.mp hw with rfl | hwrest
          · rw [hnone] at hf; cases hf
          · simp only [studyLoop, hf]
            split_ifs <;> exact ih hwrest (List.nodup_cons.mp hvcons).2 hnone

/-- Every item of the returned study list came out of the study loop over
the student's class catalog (no distinctness assumption needed). -/
theorem output_mem_studyLoop {db : DB} {sc : String} {now : Timestamp} {i : StudyItem}
    (hi : i ∈ (get_student_words_for_study db sc now).1) :
    ∃ st, db.students.find? (fun s => s.code == sc) = some st ∧
      i ∈ (studyLoop sc now (class_words_of db st) db).1 := by
  unfold get_student_words_for_study at hi
  cases hs : db.students.find? (fun s => s.code == sc) with
  | none => rw [hs] at hi; cases hi
  | some st =>
      rw [hs] at hi
      dsimp only at hi
      refine ⟨st, rfl, ?_⟩
      rcases List.mem_append.mp hi with hi | hi
      · exact (List.mem_filter.mp (mem_sortByBoxDesc.mp hi)).1
      · exact (List.mem_filter.mp hi).1

/-! ### The claims -/

/-- C1: the box transition of `submit_answer`.  With the current box taken
as the stored `Progress.box_number` (or 1 when no record exists), a correct
answer promotes any box below 5 by one, a correct answer at box 5 stays at
box 5, and an incorrect answer leaves every box unchanged (no demotion). -/
theorem submit_answer_box_transition (db : DB) (s : StudySession) (now : Timestamp)
    (r : StudyResponse) (h : (submit_answer db s now).1 = .ok r) :
    (r.is_correct = true → current_box_of db s.student_code s.word_id < 5 →
        r.new_box = current_box_of db s.student_code s.word_id + 1)
    ∧ (r.is_correct = true → current_box_of db s.student_code s.word_id = 5 →
        r.new_box = 5)
    ∧ (r.is_correct = false →
        r.new_box = current_box_of db s.student_code s.word_id) := by
  unfold submit_answer at h
  cases hw : db.words.find? (fun w => w.id == s.word_id) with
  | none => rw [hw] at h; simp at h
  | some w =>
      rw [hw] at h
      dsimp only at h
      injection h with h
      subst h
      refine ⟨?_, ?_, ?_⟩
      · intro hc hlt
        dsimp only at hc
        simp [hc, hlt]
      · intro hc heq
        dsimp only at hc
        simp [hc, heq]
      · intro hc
        dsimp only at hc
        simp [hc]

/-- C1 witness: in `c1_db` the word sits in box 2; the correct answer
`"Merhaba "` promotes it to box 3 = current box + 1. -/
theorem submit_answer_box_transition_witness :
    (submit_answer c1_db c1_session 1000).1 =
        Except.ok ⟨0, "hello", true, ["merhaba"], 3, .promoted 3⟩
      ∧ (3 : Nat) = current_box_of c1_db "9011" 0 + 1 :=
  ⟨rfl,
    (submit_answer_box_transition c1_db c1_session 1000
        ⟨0, "hello", true, ["merhaba"], 3, .promoted 3⟩ rfl).1 rfl (by decide)⟩

/-- C5: `submit_answer` judges the answer correct exactly when, after a
whitespace trim and lowercasing, it equals at least one of the word's
Turkish meanings normalized the same way — plain string equality, nothing
fuzzier. -/
theorem answer_matching_normalized (db : DB) (s : StudySession) (now : Timestamp)
    (w : Word) (r : StudyResponse)
    (hw : db.words.find? (fun w2 => w2.id == s.word_id) = some w)
    (h : (submit_answer db s now).1 = .ok r) :
    r.is_correct = true ↔
      ∃ m ∈ w.turkish_meanings, py_lower (py_strip m) = py_lower (py_strip s.answer) := by
  unfold submit_answer at h
  rw [hw] at h
  dsimp only at h
  injection h with h
  subst h
  show answer_matches w.turkish_meanings s.answer = true ↔ _
  unfold answer_matches
  rw [List.any_eq_true]
  constructor
  · rintro ⟨m, hm, he⟩
    exact ⟨m, hm, by simpa [beq_iff_eq] using he⟩
  · rintro ⟨m, hm, he⟩
    exact ⟨m, hm, by simpa [beq_iff_eq] using he⟩

/-- C5 witness: `" MERHABA"` matches the stored meaning `"merhaba"`. -/
theorem answer_matching_normalized_witness :
    (submit_answer wDB ⟨"9011", 0, " MERHABA", false⟩ 7).1 =
        Except.ok ⟨0, "hello", true, ["merhaba"], 2, .promoted 2⟩
      ∧ ((⟨0, "hello", true, ["merhaba"], 2, .promoted 2⟩ : StudyResponse).is_correct = true ↔
          ∃ m ∈ ["merhaba"], py_lower (py_strip m) = py_lower (py_strip " MERHABA")) :=
  ⟨rfl, answer_matching_normalized wDB ⟨"9011", 0, " MERHABA", false⟩ 7 wDB_word
    ⟨0, "hello", true, ["merhaba"], 2, .promoted 2⟩ rfl rfl⟩

/-- C7: `submit_answer` fails with NotFound exactly when the word id is
unknown, and then leaves the database untouched; for a known word it
upserts the `(student_code, word_id)` progress record, setting the new box
and `last_studied_date = now` together, whatever the correctness. -/
theorem submit_answer_contract (db : DB) (s : StudySession) (now : Timestamp) :
    (db.words.find? (fun w => w.id == s.word_id) = none →
        (submit_answer db s now).1 = .error .notFound ∧ (submit_answer db s now).2 = db)
    ∧ (∀ w, db.words.find? (fun w2 => w2.id == s.word_id) = some w →
        ∃ r, (submit_answer db s now).1 = .ok r ∧
          ∃ q, find_progress (submit_answer db s now).2 s.student_code s.word_id =
              some q ∧
            q.box_number = r.new_box ∧ q.last_studied_date = some now) := by
  constructor
  · intro h
    unfold submit_answer
    rw [h]
    exact ⟨rfl, rfl⟩
  · intro w hw
    unfold submit_answer
    rw [hw]
    dsimp only
    refine ⟨_, rfl, ?_⟩
    exact find_progress_upsert_self db s.student_code s.word_id _ (some now)

/-- C10: a meaning that strips to the empty string (as `importWords`
produces from a trailing semicolon) makes every all-whitespace answer
correct, and the box is promoted exactly as for any correct answer. -/
theorem empty_meaning_accepts_blank (db : DB) (s : StudySession) (now : Timestamp)
    (w : Word) (m : String)
    (hw : db.words.find? (fun w2 => w2.id == s.word_id) = some w)
    (hm : m ∈ w.turkish_meanings) (hme : py_strip m = "")
    (ha : py_strip s.answer = "") :
    ((submit_answer db s now).1.map fun r => (r.is_correct, r.new_box)) =
      .ok (true,
        if current_box_of db s.student_code s.word_id < 5 then
          current_box_of db s.student_code s.word_id + 1
        else current_box_of db s.student_code s.word_id) := by
  have hcorrect : answer_matches w.turkish_meanings s.answer = true := by
    unfold answer_matches
    rw [List.any_eq_true]
    exact ⟨m, hm, by simp [hme, ha]⟩
  unfold submit_answer
  rw [hw]
  dsimp only
  rw [hcorrect]
  by_cases hb : current_box_of db s.student_code s.word_id < 5
  · simp [hb, Except.map]
  · by_cases hb5 : current_box_of db s.student_code s.word_id = 5 <;>
      simp [hb, hb5, Except.map]

/-- C10 witness: importing `5A,hello,merhaba;` stores the meanings
`["merhaba", ""]`, after which the all-whitespace answer `" "` is judged
correct and promotes the word from box 1 to box 2. -/
theorem empty_meaning_accepts_blank_witness :
    (upload_words ⟨[], [], []⟩ [["5A", "hello", "merhaba;"]] 0).1.words =
        [⟨0, "5A", "hello", ["merhaba", ""]⟩]
      ∧ ((submit_answer c10_db c10_session 7).1.map fun r => (r.is_correct, r.new_box)) =
          .ok (true,
            if current_box_of c10_db c10_session.student_code c10_session.word_id < 5 then
              current_box_of c10_db c10_session.student_code c10_session.word_id + 1
            else current_box_of c10_db c10_session.student_code c10_session.word_id) :=
  ⟨rfl, empty_meaning_accepts_blank c10_db c10_session 7
    ⟨0, "5A", "hello", ["merhaba", ""]⟩ "" rfl (by decide) rfl rfl⟩

/-- C2: for a word of the student's class with a progress record in boxes
1..4, the study list contains it exactly when its last study date is null
or its UTC calendar day (truncated to midnight) lies strictly before
today's: only crossing midnight matters, not elapsed time. -/
theorem midnight_rule_eligibility (db : DB) (sc : String) (now : Timestamp)
    (st : Student) (w : Word) (p : Progress)
    (hst : db.students.find? (fun s => s.code == sc) = some st)
    (hnodup : ((class_words_of db st).map Word.id).Nodup)
    (hw : w ∈ class_words_of db st)
    (hp : find_progress db sc w.id = some p)
    (hbox : 1 ≤ p.box_number ∧ p.box_number ≤ 4) :
    ((get_student_words_for_study db sc now).1.any fun i => i.word == w) = true ↔
      (p.last_studied_date = none ∨
        ∃ d, p.last_studied_date = some d ∧ midnightOf d < midnightOf now) := by
  have h5 : (p.box_number == 5) = false := by
    have : p.box_number ≠ 5 := by omega
    simp [this]
  have hentry : eligible_entry db sc now w =
      (if is_midnight_passed now p.last_studied_date then
        some ⟨w, p.box_number, true⟩ else none) := by
    unfold eligible_entry
    rw [hp]
    simp [h5]
  rw [← is_midnight_passed_iff now p.last_studied_date]
  constructor
  · intro hany
    obtain ⟨i, hi, hieq⟩ := List.any_eq_true.mp hany
    obtain ⟨w2, hw2, he2⟩ := output_mem_item hst hnodup hi
    have hiw : i.word = w := by simpa [beq_iff_eq] using hieq
    have hww : w2 = w := ((eligible_entry_word he2).1.symm.trans hiw).symm ▸ rfl
    rw [hww] at he2
    rw [hentry] at he2
    by_cases hcan : is_midnight_passed now p.last_studied_date = true
    · exact hcan
    · rw [if_neg (by simpa using hcan)] at he2
      cases he2
  · intro hcan
    rw [List.any_eq_true]
    refine ⟨⟨w, p.box_number, true⟩, ?_, by simp⟩
    refine item_mem_output hst hnodup hw ?_ (Or.inl (show p.box_number < 5 by omega))
    rw [hentry, if_pos hcan]

/-- C2 witness: studied at 23:59 UTC (minute 1439), the word is eligible at
00:00 UTC (minute 1440); studied at 00:01 UTC (minute 1441), it is still
ineligible at 23:59 UTC the same day (minute 2879). -/
theorem midnight_rule_eligibility_witness :
    ((get_student_words_for_study c2_db_a "s" 1440).1.any fun i => i.word == c2_word)
        = true
      ∧ ((get_student_words_for_study c2_db_b "s" 2879).1.any fun i => i.word == c2_word)
        = false := by
  constructor
  · exact (midnight_rule_eligibility c2_db_a "s" 1440 ⟨"s", "n", "c"⟩ c2_word
      ⟨"s", 0, 3, some 1439⟩ rfl (by decide) (by decide) rfl (by decide)).mpr
      (Or.inr ⟨1439, rfl, by decide⟩)
  · have h := midnight_rule_eligibility c2_db_b "s" 2879 ⟨"s", "n", "c"⟩ c2_word
      ⟨"s", 0, 3, some 1441⟩ rfl (by decide) (by decide) rfl (by decide)
    have hr : ¬((⟨"s", 0, 3, some 1441⟩ : Progress).last_studied_date = none ∨
        ∃ d, (⟨"s", 0, 3, some 1441⟩ : Progress).last_studied_date = some d ∧
          midnightOf d < midnightOf 2879) := by
      rintro (h1 | ⟨d, hd, hlt⟩)
      · cases h1
      · injection hd with hd
        subst hd
        exact absurd hlt (by decide)
    have : ¬(((get_student_words_for_study c2_db_b "s" 2879).1.any
        fun i => i.word == c2_word) = true) := fun hl => hr (h.mp hl)
    simpa using this

/-- C3: a box-5 word is listed exactly when its last study date is null,
and once it has a non-null last study date it never appears again for this
student — for every database reachable by any sequence of endpoint calls
and at every future instant. -/
theorem box5_exclusion (db : DB) (sc : String) (st : Student) (w : Word) (p : Progress)
    (hst : db.students.find? (fun s => s.code == sc) = some st)
    (hnodup : ((class_words_of db st).map Word.id).Nodup)
    (hw : w ∈ class_words_of db st)
    (hp : find_progress db sc w.id = some p)
    (h5 : p.box_number = 5) :
    (∀ now, (((get_student_words_for_study db sc now).1.any fun i => i.word == w)
        = true ↔ p.last_studied_date = none))
    ∧ (p.last_studied_date ≠ none →
        ∀ db2, Evolve db db2 → ∀ now,
          ((get_student_words_for_study db2 sc now).1.all
            fun i => !(i.word.id == w.id)) = true) := by
  constructor
  · intro now
    constructor
    · intro hany
      obtain ⟨i, hi, hieq⟩ := List.any_eq_true.mp hany
      obtain ⟨w2, hw2, he2⟩ := output_mem_item hst hnodup hi
      have hiw : i.word = w := by simpa [beq_iff_eq] using hieq
      have hww : w2 = w := ((eligible_entry_word he2).1.symm.trans hiw).symm ▸ rfl
      rw [hww] at he2
      unfold eligible_entry at he2
      rw [hp] at he2
      dsimp only at he2
      rw [if_pos (by simp [h5])] at he2
      cases hld : p.last_studied_date with
      | none => rfl
      | some d =>
          rw [if_neg (by simp [hld])] at he2
          cases he2
    · intro hnull
      rw [List.any_eq_true]
      refine ⟨⟨w, p.box_number, true⟩, ?_, by simp⟩
      refine item_mem_output hst hnodup hw ?_ (Or.inr h5)
      unfold eligible_entry
      rw [hp]
      dsimp only
      rw [if_pos (by simp [h5]), if_pos (by simp [hnull, is_midnight_passed])]
  · intro hl db2 hEv now
    obtain ⟨p2, hp2, hb2, hl2⟩ := evolve_preserves_box5 hEv hp h5 hl
    rw [List.all_eq_true]
    intro i hi
    obtain ⟨st2, _, hloop⟩ := output_mem_studyLoop hi
    have := studyLoop_excludes now (class_words_of db2 st2) hp2 hb2 hl2 i hloop
    simpa using this

/-- C3 witness: in `c3_db` the only word sits in box 5 with a study date,
so it is absent from the study list arbitrarily far in the future. -/
theorem box5_exclusion_witness :
    ((get_student_words_for_study c3_db "s" 9999999).1.any fun i => i.word == c2_word)
        = false
      ∧ ((get_student_words_for_study c3_db "s" 9999999).1.all
          fun i => !(i.word.id == c2_word.id)) = true := by
  have h := box5_exclusion c3_db "s" ⟨"s", "n", "c"⟩ c2_word ⟨"s", 0, 5, some 500⟩
    rfl (by decide) (by decide) rfl rfl
  constructor
  · have hiff := h.1 9999999
    have : ¬(((get_student_words_for_study c3_db "s" 9999999).1.any
        fun i => i.word == c2_word) = true) := by
      intro hl
      cases hiff.mp hl
    simpa using this
  · exact h.2 (by simp) c3_db (Evolve.refl c3_db) 9999999

/-- C4: the study list is the eligible boxes-1..4 words sorted descending
by box (stably: equal boxes keep catalog order), followed by the eligible
box-5 words in catalog order. -/
theorem study_list_ordering (db : DB) (sc : String) (now : Timestamp) (st : Student)
    (hst : db.students.find? (fun s => s.code == sc) = some st)
    (hnodup : ((class_words_of db st).map Word.id).Nodup) :
    (get_student_words_for_study db sc now).1 =
        sortByBoxDesc ((eligible_items db sc now st).filter
            fun i => i.can_study && decide (i.box < 5))
          ++ (eligible_items db sc now st).filter
            (fun i => i.can_study && i.box == 5)
      ∧ (sortByBoxDesc ((eligible_items db sc now st).filter
          fun i => i.can_study && decide (i.box < 5))).Pairwise
          (fun a b => b.box ≤ a.box)
      ∧ (sortByBoxDesc ((eligible_items db sc now st).filter
          fun i => i.can_study && decide (i.box < 5))).Perm
          ((eligible_items db sc now st).filter
            fun i => i.can_study && decide (i.box < 5))
      ∧ ∀ b, (sortByBoxDesc ((eligible_items db sc now st).filter
            fun i => i.can_study && decide (i.box < 5))).filter
            (fun i => i.box == b) =
          ((eligible_items db sc now st).filter
            fun i => i.can_study && decide (i.box < 5)).filter
            (fun i => i.box == b) :=
  ⟨get_study_output db sc now st hst hnodup,
    sorted_sortByBoxDesc _,
    perm_sortByBoxDesc _,
    fun b => filter_sortByBoxDesc _ b⟩

/-- C4 witness: four eligible words at boxes `[1, 3, 2, 4]` come back in
box order `[4, 3, 2, 1]`, and the list splits as sorted-below-5 followed
by box-5 items. -/
theorem study_list_ordering_witness :
    (get_student_words_for_study c4_db "s" 0).1 =
        sortByBoxDesc ((eligible_items c4_db "s" 0 c4_student).filter
            fun i => i.can_study && decide (i.box < 5))
          ++ (eligible_items c4_db "s" 0 c4_student).filter
            (fun i => i.can_study && i.box == 5)
      ∧ ((get_student_words_for_study c4_db "s" 0).1.map fun i => i.box) =
          [4, 3, 2, 1] :=
  ⟨(study_list_ordering c4_db "s" 0 c4_student rfl (by decide)).1, by rfl⟩

/-- C6: a class word with no progress record gets one created with box 1
and a null study date during the eligible-list computation, and the word
itself is listed with box 1. -/
theorem lazy_progress_creation (db : DB) (sc : String) (now : Timestamp)
    (st : Student) (w : Word)
    (hst : db.students.find? (fun s => s.code == sc) = some st)
    (hnodup : ((class_words_of db st).map Word.id).Nodup)
    (hw : w ∈ class_words_of db st)
    (hnone : find_progress db sc w.id = none) :
    find_progress (get_student_words_for_study db sc now).2 sc w.id =
        some (lazyProgress sc w.id)
      ∧ (⟨w, 1, true⟩ : StudyItem) ∈ (get_student_words_for_study db sc now).1 := by
  constructor
  · unfold get_student_words_for_study
    rw [hst]
    dsimp only
    exact studyLoop_creates_lazy (class_words_of db st) hw hnodup hnone
  · refine item_mem_output hst hnodup hw ?_ (Or.inl (by norm_num))
    unfold eligible_entry
    rw [hnone]

/-- C6 witness: in `wDB` nothing has been studied; computing the study list
creates the box-1 record for word 0 and lists the word with box 1. -/
theorem lazy_progress_creation_witness :
    find_progress (get_student_words_for_study wDB "9011" 50).2 "9011" 0 =
        some (lazyProgress "9011" 0)
      ∧ (⟨wDB_word, 1, true⟩ : StudyItem) ∈ (get_student_words_for_study wDB "9011" 50).1 :=
  lazy_progress_creation wDB "9011" 50 ⟨"9011", "Ali ARIKAN", "5A"⟩ wDB_word
    rfl (by decide) (by decide) rfl

/-- C8 counterexample: `c8_db` already stores the word `Hello` for class
`5A`, so a word with the same class and case-insensitively equal (in fact
identical) `english` exists — yet re-importing the identical row
`5A,Hello,merhaba` is not skipped: `words_added` is 1 and a duplicate word
is stored.  The existence probe lowercases only the incoming `english` and
compares it with the stored string, which was saved unlowered. -/
theorem word_import_dedup_counterexample :
    (c8_db.words.map fun w => (w.class_level, py_lower w.english)) = [("5A", "hello")]
      ∧ (upload_words c8_db [["5A", "Hello", "merhaba"]] 1).2 = 1
      ∧ (upload_words c8_db [["5A", "Hello", "merhaba"]] 1).1.words.length = 2 :=
  ⟨rfl, rfl, rfl⟩

/-- C8 (amended): an imported row is skipped — adding nothing and changing
nothing — exactly when a stored word has the same (trimmed) class_level and
a stored `english` that is string-equal to the row's trimmed-and-lowercased
`english`; so re-import is a no-op only when the stored spelling is already
the lowercased form, and mixed-case words are re-added. -/
theorem word_import_dedup_amended (db : DB) (fid : Nat) (c0 c1 c2 : String) :
    ((upload_words db [[c0, c1, c2]] fid).2 = 0 ↔
        (db.words.find? fun w =>
          w.class_level == py_strip c0 && w.english == py_lower (py_strip c1)).isSome)
      ∧ ((upload_words db [[c0, c1, c2]] fid).2 = 0 →
          (upload_words db [[c0, c1, c2]] fid).1 = db) := by
  unfold upload_words upload_words_row
  dsimp only [List.foldl]
  cases hf : db.words.find? fun w =>
      w.class_level == py_strip c0 && w.english == py_lower (py_strip c1) with
  | none => simp [hf]
  | some wfound => simp [hf]

/-- C9 counterexample: with the student code `9999` unknown in `c9`-style
data, `get_next_word` answers with the successful `completed` payload
rather than NotFound, and `submit_answer` never checks the student at all:
for the known word 0 it succeeds and even creates a progress record for
the nonexistent student. -/
theorem unknown_student_counterexample :
    (wDB.students.find? fun s => s.code == "9999") = none
      ∧ (get_next_word wDB "9999" 0).1 = .completed
      ∧ (submit_answer wDB ⟨"9999", 0, "merhaba", false⟩ 5).1 =
          .ok ⟨0, "hello", true, ["merhaba"], 2, .promoted 2⟩
      ∧ find_progress (submit_answer wDB ⟨"9999", 0, "merhaba", false⟩ 5).2 "9999" 0 =
          some ⟨"9999", 0, 2, some 5⟩ :=
  ⟨rfl, rfl, rfl, rfl⟩

/-- C9 (amended): for a student code matching no stored student,
`authenticateStudent`, `getStudentStats` and `getStudentWordList` fail with
NotFound, but `getNextWord` returns the successful `completed` response,
and `submitAnswer` ignores the student entirely: it fails with NotFound
exactly when the word id is unknown, succeeding for any known word. -/
theorem unknown_student_amended (db : DB) (code : String) (now : Timestamp)
    (h : db.students.find? (fun s => s.code == code) = none) :
    student_login db code = .error .notFound
      ∧ (get_student_stats db code now).1 = .error .notFound
      ∧ get_student_words db code = .error .notFound
      ∧ (get_next_word db code now).1 = .completed
      ∧ ∀ s : StudySession, s.student_code = code →
          ((submit_answer db s now).1 = .error .notFound ↔
            db.words.find? (fun w => w.id == s.word_id) = none) := by
  refine ⟨?_, ?_, ?_, ?_, ?_⟩
  · unfold student_login
    rw [h]
  · unfold get_student_stats
    rw [h]
  · unfold get_student_words
    rw [h]
  · unfold get_next_word get_student_words_for_study
    rw [h]
  · intro s _
    cases hw : db.words.find? (fun w => w.id == s.word_id) with
    | none => simp [submit_answer, hw]
    | some w => simp [submit_answer, hw]

/-- C9 witness: in `wDB` the code `9999` is unknown: authentication, stats
and the word list 404, the next-word endpoint reports completion, and an
answer submission for the known word 0 does not fail. -/
theorem unknown_student_amended_witness :
    student_login wDB "9999" = .error .notFound
      ∧ (get_student_stats wDB "9999" 0).1 = .error .notFound
      ∧ get_student_words wDB "9999" = .error .notFound
      ∧ (get_next_word wDB "9999" 0).1 = .completed
      ∧ (((submit_answer wDB ⟨"9999", 0, "x", false⟩ 0).1 = .error .notFound) ↔
          wDB.words.find? (fun w => w.id == (0 : Nat)) = none) := by
  have h := unknown_student_amended wDB "9999" 0 rfl
  exact ⟨h.1, h.2.1, h.2.2.1, h.2.2.2.1, h.2.2.2.2 ⟨"9999", 0, "x", false⟩ rfl⟩

end KelimeUygulama
